import Mathlib

/-!
Verification of the claimtrie chain-conversion and replay commands
(`claimtrie/cmd/cmd/chain.go`): the change extractor (`processBlock`),
the converter pipeline stages (`getBlock`, `saveChanges`), and the
replay engine (`NewChainReplayCommand` loop and `appendBlock`).

The ledger data model, the claim-script decoder, the change-log store
and the claim-trie state machine are external collaborators of that
file; they are modelled here from their documented contracts, while the
control flow of `chain.go` itself is translated line by line.
-/

set_option maxRecDepth 4000

deriving instance DecidableEq for Except

namespace ClaimtrieChain

/-- An outpoint: a reference to a specific output of a specific ledger
transaction (transaction hash plus output index). Hashes are modelled
as naturals. -/
structure OutPoint where
  hash : Nat
  index : Nat
deriving DecidableEq, Repr

/-- Modelled from the spec: the `change` package claim-change type enum
{AddClaim, UpdateClaim, SpendClaim, AddSupport, SpendSupport}. -/
inductive ChangeType where
  | addClaim
  | updateClaim
  | spendClaim
  | addSupport
  | spendSupport
deriving DecidableEq, Repr

/-- Modelled from the spec: a fixed-width claim identifier; modelled as a
natural number. Zero is the zero-value (not a valid claim identifier). -/
abbrev ClaimID := Nat

/-- Modelled from the spec: `change.NewClaimID` derives a fresh claim
identifier from an outpoint. Modelled as an injective pairing of the
outpoint fields, kept disjoint from zero. -/
def NewClaimID (op : OutPoint) : ClaimID :=
  (Nat.pair op.hash op.index) + 1

/-- Modelled from the spec: one `change.Change` record, the atomic unit
of derived-state mutation. `Name` is an opaque byte string (list of
naturals), `Amount` the attached value (zero for spends). -/
structure Change where
  height : Int
  type : ChangeType
  name : List Nat
  outPoint : OutPoint
  claimID : ClaimID
  amount : Int
deriving DecidableEq, Repr

/-- Modelled from the spec: the three claim-script opcodes recognised by
the decoder. -/
inductive ClaimOpcode where
  | opClaimName
  | opUpdateClaim
  | opSupportClaim
deriving DecidableEq, Repr

/-- Modelled from the spec: a successfully decoded claim script exposes
its operation code, the claimed name, and (for updates/supports) the
embedded claim identifier. -/
structure ClaimScript where
  opcode : ClaimOpcode
  name : List Nat
  claimID : ClaimID
deriving DecidableEq, Repr

/-- Modelled from the spec: the outcome of `txscript.DecodeClaimScript`
on a raw script: not claim-related at all (`ErrNotClaimScript`),
claim-shaped but malformed (any other error), or a decoded claim
script. A raw script is modelled by its decode outcome, since only the
decoder observes its bytes. -/
inductive Script where
  | notClaimScript
  | malformed
  | claim (cs : ClaimScript)
deriving DecidableEq, Repr

/-- Modelled from the spec: `txscript.DecodeClaimScript`; on the
`Script` model this is the identity observation. -/
def DecodeClaimScript (s : Script) : Script := s

/-- A transaction output: its script and its value. -/
structure TxOut where
  pkScript : Script
  value : Int
deriving DecidableEq, Repr

/-- A transaction input: the previous outpoint it consumes. -/
structure TxIn where
  previousOutPoint : OutPoint
deriving DecidableEq, Repr

/-- A transaction: its hash, inputs and outputs. -/
structure Tx where
  hash : Nat
  txIn : List TxIn
  txOut : List TxOut
deriving DecidableEq, Repr

/-- Modelled from the spec: `blockchain.IsCoinBase` holds of a
transaction with a single input whose previous outpoint is the null
outpoint (zero hash, maximal index). -/
def IsCoinBase (tx : Tx) : Bool :=
  match tx.txIn with
  | [i] => i.previousOutPoint.hash == 0 && i.previousOutPoint.index == 4294967295
  | _ => false

/-- A ledger block: its height, its transactions in block order, and the
claim-trie commitment hash recorded in its header
(`MsgBlock().Header.ClaimTrie`). -/
structure Block where
  height : Int
  transactions : List Tx
  headerClaimTrie : Nat
deriving DecidableEq, Repr

/-- Modelled from the spec: the unspent-output view
(`blockchain.UtxoViewpoint`) maps outpoints to the outputs they refer
to; modelled as an association list where the first binding wins. -/
abbrev UtxoView := List (OutPoint × TxOut)

/-- Modelled from the spec: `view.LookupEntry`, first binding wins. -/
def LookupEntry (view : UtxoView) (op : OutPoint) : Option TxOut :=
  (view.find? (fun e => e.1 == op)).map (·.2)

/-- Modelled from the spec: the view bindings contributed by a
transaction's outputs: output `i` is bound at outpoint (transaction
hash, base + i). -/
def outEntries (txHash : Nat) : Nat → List TxOut → List (OutPoint × TxOut)
  | _, [] => []
  | i, o :: os => (OutPoint.mk txHash i, o) :: outEntries txHash (i + 1) os

/-- Modelled from the spec: `view.AddTxOuts` registers every output of
the transaction into the view, regardless of whether it is
claim-related. -/
def AddTxOuts (view : UtxoView) (tx : Tx) : UtxoView :=
  outEntries tx.hash 0 tx.txOut ++ view

/-- chain.go lines 329-362: processing of one transaction input inside
`processBlock`. A missing view entry is logged `Criticalf` and then
dereferenced (`e.PkScript()`), a fatal crash, modelled as an error; a
non-claim script is skipped; a malformed claim script is logged
`Criticalf` and then the nil decode result is dereferenced
(`cs.Name()`), again a fatal crash, modelled as an error. Otherwise the
opcode selects the spend-side change type and claim identifier. -/
def spendChange (view : UtxoView) (height : Int) (txIn : TxIn) :
    Except String (Option Change) :=
  let op := txIn.previousOutPoint
  match LookupEntry view op with
  | none => .error "missing input in view"
  | some e =>
    match DecodeClaimScript e.pkScript with
    | .notClaimScript => .ok none
    | .malformed => .error "cannot parse claim script"
    | .claim cs =>
      match cs.opcode with
      | .opClaimName =>
        .ok (some ⟨height, .spendClaim, cs.name, op, NewClaimID op, 0⟩)
      | .opUpdateClaim =>
        .ok (some ⟨height, .spendClaim, cs.name, op, cs.claimID, 0⟩)
      | .opSupportClaim =>
        .ok (some ⟨height, .spendSupport, cs.name, op, cs.claimID, 0⟩)

/-- chain.go lines 329-362: the input loop of `processBlock`, in input
order, short-circuiting on the first fatal decode or lookup failure. -/
def spendChanges (view : UtxoView) (height : Int) :
    List TxIn → Except String (List Change)
  | [] => .ok []
  | i :: is =>
    match spendChange view height i with
    | .error e => .error e
    | .ok oc =>
      match spendChanges view height is with
      | .error e => .error e
      | .ok rest => .ok (oc.toList ++ rest)

/-- chain.go lines 364-391: processing of one transaction output inside
`processBlock`. A non-claim script is skipped; on any other decode
error the code checks nothing further and dereferences the nil decode
result (`cs.Name()`), a fatal crash, modelled as an error. Otherwise
the opcode selects the creation-side change type and claim identifier;
the outpoint is this output's own (transaction hash, output index). -/
def createChange (height : Int) (txHash : Nat) (i : Nat) (txOut : TxOut) :
    Except String (Option Change) :=
  let op : OutPoint := ⟨txHash, i⟩
  match DecodeClaimScript txOut.pkScript with
  | .notClaimScript => .ok none
  | .malformed => .error "nil claim script dereferenced"
  | .claim cs =>
    match cs.opcode with
    | .opClaimName =>
      .ok (some ⟨height, .addClaim, cs.name, op, NewClaimID op, txOut.value⟩)
    | .opSupportClaim =>
      .ok (some ⟨height, .addSupport, cs.name, op, cs.claimID, txOut.value⟩)
    | .opUpdateClaim =>
      .ok (some ⟨height, .updateClaim, cs.name, op, cs.claimID, txOut.value⟩)

/-- chain.go lines 364-391: the output loop of `processBlock`, indexing
outputs from `i` upward, short-circuiting on the first fatal decode. -/
def createChanges (height : Int) (txHash : Nat) :
    Nat → List TxOut → Except String (List Change)
  | _, [] => .ok []
  | i, o :: os =>
    match createChange height txHash i o with
    | .error e => .error e
    | .ok oc =>
      match createChanges height txHash (i + 1) os with
      | .error e => .error e
      | .ok rest => .ok (oc.toList ++ rest)

/-- chain.go lines 322-391: processing of one transaction inside
`processBlock`: first `view.AddTxOuts` registers every output, then a
coinbase transaction is skipped, then the spend-side changes of the
inputs are produced, then the creation-side changes of the outputs. -/
def extractTx (view : UtxoView) (height : Int) (tx : Tx) :
    Except String (List Change × UtxoView) :=
  let view1 := AddTxOuts view tx
  if IsCoinBase tx then .ok ([], view1)
  else
    match spendChanges view1 height tx.txIn with
    | .error e => .error e
    | .ok sp =>
      match createChanges height tx.hash 0 tx.txOut with
      | .error e => .error e
      | .ok cr => .ok (sp ++ cr, view1)

/-- chain.go lines 320-392: the per-block transaction loop of
`processBlock`, transactions in block order, threading the
unspent-output view and concatenating each transaction's changes. -/
def extractTxs (height : Int) :
    UtxoView → List Tx → Except String (List Change × UtxoView)
  | view, [] => .ok ([], view)
  | view, tx :: txs =>
    match extractTx view height tx with
    | .error e => .error e
    | .ok (cs, view1) =>
      match extractTxs height view1 txs with
      | .error e => .error e
      | .ok (rest, view2) => .ok (cs ++ rest, view2)

/-- chain.go lines 320-392: the extractor run on one block, from a given
unspent-output view state. -/
def extractBlock (view : UtxoView) (b : Block) :
    Except String (List Change × UtxoView) :=
  extractTxs b.height view b.transactions

/-- chain.go lines 395-397: only a non-empty change list is pushed onto
the changes channel. -/
def emittedBatch (cs : List Change) : Option (List Change) :=
  if cs.isEmpty then none else some cs

/-- chain.go line 413: `saveChanges` keys the save by
`changes[0].Height`. Never reached on an empty batch. -/
def saveKey : List Change → Int
  | [] => 0
  | c :: _ => c.height

/-- The claim restated as code, for comparison with `extractTx`: the
transaction's inputs are processed against the incoming unspent-output
view, and its outputs are registered only afterwards. -/
def extractTxClaimOrder (view : UtxoView) (height : Int) (tx : Tx) :
    Except String (List Change × UtxoView) :=
  if IsCoinBase tx then .ok ([], AddTxOuts view tx)
  else
    match spendChanges view height tx.txIn with
    | .error e => .error e
    | .ok sp =>
      match createChanges height tx.hash 0 tx.txOut with
      | .error e => .error e
      | .ok cr => .ok (sp ++ cr, AddTxOuts view tx)

/-! The converter pipeline fetch stage. -/

/-- The integer interval [a, b) as a list, in increasing order; the
shape of every `for ht := a; ht < b; ht++` loop in chain.go. -/
def intRange (a b : Int) : List Int :=
  (List.range (b - a).toNat).map (fun i => a + (i : Int))

/-- chain.go lines 296-302: the exclusive upper bound of the heights the
fetch stage reads: the constant 200000, capped by the chain tip. The
`--height` flag bound in `NewChainConvertCommand` (line 253) is never
passed to the converter (`chainConverter` has no height field), so the
bound depends only on the tip. -/
def fetchToHeight (tipHeight : Int) : Int :=
  let toHeight : Int := 200000
  if toHeight > tipHeight then tipHeight else toHeight

/-- chain.go lines 296-312: the heights the fetch stage (`getBlock`)
reads, in order. -/
def fetchHeights (tipHeight : Int) : List Int :=
  intRange 0 (fetchToHeight tipHeight)

/-- The claim restated as code, for comparison with `fetchHeights`: for
a convert invocation with flag value `flagHeight` and tip `tipHeight`,
the fetch stage reads every height from 0 up to (but excluding)
min(flagHeight, tipHeight). -/
def fetchHeightsClaim (flagHeight tipHeight : Int) : List Int :=
  intRange 0 (min flagHeight tipHeight)

/-! The replay engine. -/

/-- Modelled from the spec: the claim-trie state machine black box of
section 4.3, with the exact argument orders of the calls in chain.go
lines 151-159: AddClaim(name, outPoint, claimID, amount),
UpdateClaim(name, outPoint, amount, claimID), SpendClaim(name,
outPoint, claimID), AddSupport(name, outPoint, amount, claimID),
SpendSupport(name, outPoint, claimID), plus AppendBlock, Height and
MerkleHash. Each mutation may fail. -/
structure StateMachine (S : Type) where
  addClaim : S → List Nat → OutPoint → ClaimID → Int → Except String S
  updateClaim : S → List Nat → OutPoint → Int → ClaimID → Except String S
  spendClaim : S → List Nat → OutPoint → ClaimID → Except String S
  addSupport : S → List Nat → OutPoint → Int → ClaimID → Except String S
  spendSupport : S → List Nat → OutPoint → ClaimID → Except String S
  appendBlock : S → Except String S
  height : S → Int
  merkleHash : S → Nat

/-- chain.go lines 149-162: dispatch of one change record to the state
machine operation matching its type. -/
def applyChange {S : Type} (M : StateMachine S) (s : S) (chg : Change) :
    Except String S :=
  match chg.type with
  | .addClaim => M.addClaim s chg.name chg.outPoint chg.claimID chg.amount
  | .updateClaim => M.updateClaim s chg.name chg.outPoint chg.amount chg.claimID
  | .spendClaim => M.spendClaim s chg.name chg.outPoint chg.claimID
  | .addSupport => M.addSupport s chg.name chg.outPoint chg.amount chg.claimID
  | .spendSupport => M.spendSupport s chg.name chg.outPoint chg.claimID

/-- chain.go lines 147-167: application of a loaded batch in stored
order, stopping at the first failing change; alongside the outcome it
returns the list of changes that were applied. -/
def applyChanges {S : Type} (M : StateMachine S) :
    S → List Change → Except String S × List Change
  | s, [] => (.ok s, [])
  | s, c :: cs =>
    match applyChange M s c with
    | .error e => (.error e, [])
    | .ok s1 =>
      let r := applyChanges M s1 cs
      (r.1, c :: r.2)

/-- chain.go lines 190-208 (`appendBlock`): advance the state machine
one block, fetch the canonical block at the new height, and compare
the machine's commitment hash against the hash in that block's header;
a mismatch is an error. -/
def appendBlock {S : Type} (M : StateMachine S)
    (chain : Int → Except String Block) (s : S) : Except String S :=
  match M.appendBlock s with
  | .error e => .error e
  | .ok s1 =>
    match chain (M.height s1) with
    | .error e => .error e
    | .ok block =>
      if M.merkleHash s1 = block.headerClaimTrie then .ok s1
      else .error "hash mismatched"

/-- Modelled from the spec: the outcome of the change-log store's Load:
a distinguished not-found condition, another failure, or the stored
batch. -/
inductive LoadResult where
  | notFound
  | failure (e : String)
  | found (cs : List Change)
deriving DecidableEq, Repr

/-- chain.go lines 140-145: load the batch for a height; not-found is
treated as an empty batch, any other failure is an error. -/
def loadChanges (load : Int → LoadResult) (h : Int) :
    Except String (List Change) :=
  match load h with
  | .notFound => .ok []
  | .failure e => .error e
  | .found cs => .ok cs

/-- An operation performed on the claim databases by the replay
command: deletion of a named repository, opening the chain (change
log) repository, or a Load/Save on it. -/
inductive RepoOp where
  | deleteRepo (name : String)
  | openChainRepo
  | loadChainRepo (height : Int)
  | saveChainRepo (height : Int)
deriving DecidableEq, Repr

/-- The observable outcome of the replay loop: the final result, the
change records actually applied to the state machine, and the
operations performed on the chain repository. -/
structure ReplayOut (S : Type) where
  result : Except String S
  applied : List Change
  loads : List RepoOp
deriving DecidableEq, Repr

/-- chain.go lines 138-176: the replay loop over the listed heights.
For each height `ht` it loads the batch for `ht + 1` (not-found meaning
empty), applies each change in stored order, then runs `appendBlock`
(advance plus hash check); the first failure stops the loop. -/
def replayLoop {S : Type} (M : StateMachine S)
    (chain : Int → Except String Block) (load : Int → LoadResult) :
    List Int → S → ReplayOut S
  | [], s => ⟨.ok s, [], []⟩
  | ht :: rest, s =>
    match loadChanges load (ht + 1) with
    | .error e => ⟨.error e, [], [.loadChainRepo (ht + 1)]⟩
    | .ok changes =>
      match applyChanges M s changes with
      | (.error e, log) => ⟨.error e, log, [.loadChainRepo (ht + 1)]⟩
      | (.ok s1, log) =>
        match appendBlock M chain s1 with
        | .error e => ⟨.error e, log, [.loadChainRepo (ht + 1)]⟩
        | .ok s2 =>
          let out := replayLoop M chain load rest s2
          ⟨out.result, log ++ out.applied, .loadChainRepo (ht + 1) :: out.loads⟩

/-- Modelled from the spec: the four derived-state repositories the
replay command deletes before reconstruction (chain.go lines 97-102):
block, node, merkle-trie and temporal. The chain (change log)
repository is not among them. -/
def derivedRepoNames : List String :=
  ["blockRepo", "nodeRepo", "merkleTrieRepo", "temporalRepo"]

/-- chain.go lines 95-176: the repository operations performed by the
replay command, in order: delete the four derived-state repositories,
open the chain repository, then the loads issued by the replay loop. -/
def replayCmdTrace {S : Type} (M : StateMachine S)
    (chain : Int → Except String Block) (load : Int → LoadResult)
    (fromHeight toHeight : Int) (s : S) : List RepoOp :=
  derivedRepoNames.map RepoOp.deleteRepo ++ [RepoOp.openChainRepo] ++
    (replayLoop M chain load (intRange fromHeight toHeight) s).loads

/-! Concrete fixtures exercising the definitions on small inputs. -/

/-- A claim script creating the name [1]. -/
def csCreate : ClaimScript := ⟨.opClaimName, [1], 0⟩

/-- A claim script updating the name [1] as claim 42. -/
def csUpdate : ClaimScript := ⟨.opUpdateClaim, [1], 42⟩

/-- A claim script supporting claim 42 of name [1]. -/
def csSupport : ClaimScript := ⟨.opSupportClaim, [1], 42⟩

/-- A transaction whose single input spends the transaction's own
output 0, which carries a create claim script. -/
def selfSpendTx : Tx := ⟨7, [⟨⟨7, 0⟩⟩], [⟨.claim csCreate, 10⟩]⟩

/-- A transaction with no inputs and one claim-creating output. -/
def createTx : Tx := ⟨7, [], [⟨.claim csCreate, 10⟩]⟩

/-- A transaction with no inputs, one non-claim output and one
claim-creating output. -/
def mixedTx : Tx := ⟨8, [], [⟨.notClaimScript, 4⟩, ⟨.claim csCreate, 10⟩]⟩

/-- A transaction spending the claim-creating output of `createTx`. -/
def spendTx : Tx := ⟨9, [⟨⟨7, 0⟩⟩], [⟨.notClaimScript, 10⟩]⟩

/-- A block at height 3 containing `createTx` then `spendTx`. -/
def blkCreate : Block := ⟨3, [createTx, spendTx], 0⟩

/-- A view binding outpoint (7, 0) to an output with a malformed claim
script. -/
def viewMalformed : UtxoView := [(⟨7, 0⟩, ⟨.malformed, 10⟩)]

/-- A trivial state machine over natural-number states: every mutation
succeeds leaving the state unchanged, AppendBlock increments it,
Height and MerkleHash both read it. -/
def Mw : StateMachine Nat :=
  ⟨fun s _ _ _ _ => .ok s, fun s _ _ _ _ => .ok s, fun s _ _ _ => .ok s,
   fun s _ _ _ _ => .ok s, fun s _ _ _ => .ok s,
   fun s => .ok (s + 1), fun s => (s : Int), fun s => s⟩

/-- A block source whose every header records commitment hash 999,
disagreeing with `Mw` from height 1 on. -/
def chainBad : Int → Except String Block := fun h => .ok ⟨h, [], 999⟩

/-- A block source whose header at height h records commitment hash h,
agreeing with `Mw` everywhere. -/
def chainGood : Int → Except String Block := fun h => .ok ⟨h, [], h.toNat⟩

/-- A change-log store with no batch at any height. -/
def loadEmpty : Int → LoadResult := fun _ => .notFound

/-- A change-log store that fails with an I/O error at every height. -/
def loadBroken : Int → LoadResult := fun _ => .failure "io failure"

/-- A view binding outpoint (7, 0) to the claim-creating output of
`createTx`. -/
def viewCreate : UtxoView := [(⟨7, 0⟩, ⟨.claim csCreate, 10⟩)]

/-- The change batch extracted from `blkCreate` starting from an empty
view. -/
def csBatch : List Change :=
  [⟨3, .addClaim, [1], ⟨7, 0⟩, 57, 10⟩,
   ⟨3, .spendClaim, [1], ⟨7, 0⟩, 57, 0⟩]

/-- The unspent-output view left by extracting `blkCreate` from an
empty view. -/
def viewBatch : UtxoView :=
  [(⟨9, 0⟩, ⟨.notClaimScript, 10⟩), (⟨7, 0⟩, ⟨.claim csCreate, 10⟩)]

/-- The non-coinbase body of `extractTx`, run against an explicitly
given unspent-output view: spend-side changes of the inputs, then
creation-side changes of the outputs, handing the given view on. -/
def extractTxFromRegistered (view1 : UtxoView) (height : Int) (tx : Tx) :
    Except String (List Change × UtxoView) :=
  match spendChanges view1 height tx.txIn with
  | .error e => .error e
  | .ok sp =>
    match createChanges height tx.hash 0 tx.txOut with
    | .error e => .error e
    | .ok cr => .ok (sp ++ cr, view1)

/-! Helper lemmas about the extractor. -/

/-- A successfully produced spend-side change has a spend type, the
spent outpoint, and the extraction height. -/
theorem spendChange_ok {view : UtxoView} {height : Int} {txIn : TxIn}
    {c : Change} (h : spendChange view height txIn = .ok (some c)) :
    (c.type = .spendClaim ∨ c.type = .spendSupport) ∧
    c.outPoint = txIn.previousOutPoint ∧ c.height = height := by
  cases hl : LookupEntry view txIn.previousOutPoint with
  | none => simp [spendChange, hl] at h
  | some e =>
    cases hs : e.pkScript with
    | notClaimScript => simp [spendChange, DecodeClaimScript, hl, hs] at h
    | malformed => simp [spendChange, DecodeClaimScript, hl, hs] at h
    | claim cs =>
      cases ho : cs.opcode <;>
      · simp [spendChange, DecodeClaimScript, hl, hs, ho] at h
        subst h
        simp

/-- Every change produced by the input loop has a spend type, spends
one of the listed inputs, and carries the extraction height. -/
theorem spendChanges_ok {view : UtxoView} {height : Int} :
    ∀ {is : List TxIn} {l : List Change},
      spendChanges view height is = .ok l →
      ∀ c ∈ l, (c.type = .spendClaim ∨ c.type = .spendSupport) ∧
        c.outPoint ∈ is.map TxIn.previousOutPoint ∧ c.height = height := by
  intro is
  induction is with
  | nil =>
    intro l h c hc
    simp [spendChanges] at h
    subst h
    simp at hc
  | cons i is ih =>
    intro l h c hc
    cases h1 : spendChange view height i with
    | error e => simp [spendChanges, h1] at h
    | ok oc =>
      cases h2 : spendChanges view height is with
      | error e => simp [spendChanges, h1, h2] at h
      | ok rest =>
        simp [spendChanges, h1, h2] at h
        subst h
        rcases List.mem_append.mp hc with hin | hin
        · have hoc : oc = some c := by
            cases oc with
            | none => simp at hin
            | some a => simp at hin; subst hin; rfl
          subst hoc
          obtain ⟨ht, hop, hh⟩ := spendChange_ok h1
          exact ⟨ht, by simp [hop], hh⟩
        · obtain ⟨ht, hop, hh⟩ := ih h2 c hin
          exact ⟨ht, by simp at hop ⊢; exact Or.inr hop, hh⟩

/-- A successfully produced creation-side change has a creation type,
an outpoint on the producing transaction, and the extraction height. -/
theorem createChange_ok {height : Int} {txHash : Nat} {i : Nat}
    {txOut : TxOut} {c : Change}
    (h : createChange height txHash i txOut = .ok (some c)) :
    (c.type = .addClaim ∨ c.type = .updateClaim ∨ c.type = .addSupport) ∧
    c.outPoint.hash = txHash ∧ c.height = height := by
  cases hs : txOut.pkScript with
  | notClaimScript => simp [createChange, DecodeClaimScript, hs] at h
  | malformed => simp [createChange, DecodeClaimScript, hs] at h
  | claim cs =>
    cases ho : cs.opcode <;>
    · simp [createChange, DecodeClaimScript, hs, ho] at h
      subst h
      simp

/-- Every change produced by the output loop has a creation type, an
outpoint on the producing transaction, and the extraction height. -/
theorem createChanges_ok {height : Int} {txHash : Nat} :
    ∀ {i : Nat} {os : List TxOut} {l : List Change},
      createChanges height txHash i os = .ok l →
      ∀ c ∈ l, (c.type = .addClaim ∨ c.type = .updateClaim ∨
          c.type = .addSupport) ∧
        c.outPoint.hash = txHash ∧ c.height = height := by
  intro i os
  induction os generalizing i with
  | nil =>
    intro l h c hc
    simp [createChanges] at h
    subst h
    simp at hc
  | cons o os ih =>
    intro l h c hc
    cases h1 : createChange height txHash i o with
    | error e => simp [createChanges, h1] at h
    | ok oc =>
      cases h2 : createChanges height txHash (i + 1) os with
      | error e => simp [createChanges, h1, h2] at h
      | ok rest =>
        simp [createChanges, h1, h2] at h
        subst h
        rcases List.mem_append.mp hc with hin | hin
        · have hoc : oc = some c := by
            cases oc with
            | none => simp at hin
            | some a => simp at hin; subst hin; rfl
          subst hoc
          exact createChange_ok h1
        · exact ih h2 c hin

/-- Successful extraction of one transaction splits into the spend-side
changes (spend types, outpoints among the inputs) followed by the
creation-side changes (creation types, outpoints on this transaction),
all at the extraction height. -/
theorem extractTx_split {view : UtxoView} {height : Int} {tx : Tx}
    {cs : List Change} {view1 : UtxoView}
    (h : extractTx view height tx = .ok (cs, view1)) :
    ∃ sp cr, cs = sp ++ cr ∧
      (∀ c ∈ sp, (c.type = .spendClaim ∨ c.type = .spendSupport) ∧
        c.outPoint ∈ tx.txIn.map TxIn.previousOutPoint ∧
        c.height = height) ∧
      (∀ c ∈ cr, (c.type = .addClaim ∨ c.type = .updateClaim ∨
          c.type = .addSupport) ∧
        c.outPoint.hash = tx.hash ∧ c.height = height) := by
  by_cases hcb : IsCoinBase tx
  · refine ⟨[], [], ?_, by simp, by simp⟩
    simp [extractTx, hcb] at h
    simp [h.1.symm]
  · cases h1 : spendChanges (AddTxOuts view tx) height tx.txIn with
    | error e => simp [extractTx, hcb, h1] at h
    | ok sp =>
      cases h2 : createChanges height tx.hash 0 tx.txOut with
      | error e => simp [extractTx, hcb, h1, h2] at h
      | ok cr =>
        simp [extractTx, hcb, h1, h2] at h
        exact ⟨sp, cr, h.1.symm, fun c hc => spendChanges_ok h1 c hc,
          fun c hc => createChanges_ok h2 c hc⟩

/-- Every change extracted from a transaction carries the extraction
height. -/
theorem extractTx_heights {view : UtxoView} {height : Int} {tx : Tx}
    {cs : List Change} {view1 : UtxoView}
    (h : extractTx view height tx = .ok (cs, view1)) :
    ∀ c ∈ cs, c.height = height := by
  obtain ⟨sp, cr, rfl, hsp, hcr⟩ := extractTx_split h
  intro c hc
  rcases List.mem_append.mp hc with hin | hin
  · exact (hsp c hin).2.2
  · exact (hcr c hin).2.2

/-- Every change extracted from a transaction list carries the
extraction height. -/
theorem extractTxs_heights {height : Int} :
    ∀ {view : UtxoView} {txs : List Tx} {cs : List Change}
      {view1 : UtxoView},
      extractTxs height view txs = .ok (cs, view1) →
      ∀ c ∈ cs, c.height = height := by
  intro view txs
  induction txs generalizing view with
  | nil =>
    intro cs view1 h c hc
    simp [extractTxs] at h
    obtain ⟨h3, _⟩ := h
    subst h3
    simp at hc
  | cons tx txs ih =>
    intro cs view1 h c hc
    cases h1 : extractTx view height tx with
    | error e => simp [extractTxs, h1] at h
    | ok p =>
      obtain ⟨cs1, v1⟩ := p
      cases h2 : extractTxs height v1 txs with
      | error e => simp [extractTxs, h1, h2] at h
      | ok q =>
        obtain ⟨cs2, v2⟩ := q
        simp [extractTxs, h1, h2] at h
        obtain ⟨h3, _⟩ := h
        subst h3
        rcases List.mem_append.mp hc with hin | hin
        · exact extractTx_heights h1 c hin
        · exact ih h2 c hin

/-- Finding output j among the entries contributed by a transaction's
outputs, when indexing starts at i, yields output j itself. -/
theorem outEntries_lookup {txHash : Nat} :
    ∀ {os : List TxOut} {i j : Nat} (hj : j < os.length),
      List.find? (fun e => e.1 == OutPoint.mk txHash (i + j))
          (outEntries txHash i os) =
        some (OutPoint.mk txHash (i + j), os.get ⟨j, hj⟩) := by
  intro os
  induction os with
  | nil => intro i j hj; simp at hj
  | cons o os ih =>
    intro i j hj
    cases j with
    | zero =>
      rw [outEntries]
      rw [List.find?_cons_of_pos _ (by simp)]
      simp
    | succ j =>
      rw [outEntries]
      rw [List.find?_cons_of_neg _ (by simp [OutPoint.mk.injEq])]
      have hj2 : j < os.length := by simpa using Nat.lt_of_succ_lt_succ hj
      have := ih (i := i + 1) (j := j) hj2
      have harith : i + 1 + j = i + (j + 1) := by omega
      rw [harith] at this
      rw [this]
      simp

/-- After `AddTxOuts`, every output of the transaction is found in the
view at its own outpoint. -/
theorem addTxOuts_lookup {view : UtxoView} {tx : Tx} {j : Nat}
    (hj : j < tx.txOut.length) :
    LookupEntry (AddTxOuts view tx) (OutPoint.mk tx.hash j) =
      some (tx.txOut.get ⟨j, hj⟩) := by
  have h0 := @outEntries_lookup tx.hash tx.txOut 0 j hj
  rw [Nat.zero_add] at h0
  rw [LookupEntry, AddTxOuts, List.find?_append, h0]
  rfl

/-! Helper lemmas about the replay loop. -/

/-- Every chain-repository operation issued by the replay loop is a
Load. -/
theorem replayLoop_loads_are_loads {S : Type} {M : StateMachine S}
    {chain : Int → Except String Block} {load : Int → LoadResult} :
    ∀ {hts : List Int} {s : S},
      ∀ op ∈ (replayLoop M chain load hts s).loads,
        ∃ h, op = RepoOp.loadChainRepo h := by
  intro hts
  induction hts with
  | nil => intro s op hop; simp [replayLoop] at hop
  | cons ht rest ih =>
    intro s op hop
    cases hld : loadChanges load (ht + 1) with
    | error e =>
      simp [replayLoop, hld] at hop
      exact ⟨ht + 1, hop⟩
    | ok changes =>
      rcases hap : applyChanges M s changes with ⟨r, log⟩
      cases r with
      | error e =>
        simp [replayLoop, hld, hap] at hop
        exact ⟨ht + 1, hop⟩
      | ok s1 =>
        cases hab : appendBlock M chain s1 with
        | error e =>
          simp [replayLoop, hld, hap, hab] at hop
          exact ⟨ht + 1, hop⟩
        | ok s2 =>
          simp [replayLoop, hld, hap, hab] at hop
          rcases hop with hop | hop
          · exact ⟨ht + 1, hop⟩
          · exact ih op hop

/-- A successful replay over a first height list continues through an
appended list from the reached state, accumulating applied changes and
load operations. -/
theorem replayLoop_append {S : Type} {M : StateMachine S}
    {chain : Int → Except String Block} {load : Int → LoadResult} :
    ∀ {l1 : List Int} (l2 : List Int) {s s1 : S} {log1 : List Change}
      {ops1 : List RepoOp},
      replayLoop M chain load l1 s = ⟨.ok s1, log1, ops1⟩ →
      replayLoop M chain load (l1 ++ l2) s =
        ⟨(replayLoop M chain load l2 s1).result,
         log1 ++ (replayLoop M chain load l2 s1).applied,
         ops1 ++ (replayLoop M chain load l2 s1).loads⟩ := by
  intro l1
  induction l1 with
  | nil =>
    intro l2 s s1 log1 ops1 h
    simp [replayLoop] at h
    obtain ⟨h1, h2, h3⟩ := h
    subst h1
    subst h2
    subst h3
    simp
  | cons ht rest ih =>
    intro l2 s s1 log1 ops1 h
    cases hld : loadChanges load (ht + 1) with
    | error e => simp [replayLoop, hld] at h
    | ok changes =>
      rcases hap : applyChanges M s changes with ⟨r, log⟩
      cases r with
      | error e => simp [replayLoop, hld, hap] at h
      | ok s1' =>
        cases hab : appendBlock M chain s1' with
        | error e => simp [replayLoop, hld, hap, hab] at h
        | ok s2 =>
          rcases hout : replayLoop M chain load rest s2 with ⟨r2, app2, ops2⟩
          simp [replayLoop, hld, hap, hab, hout] at h
          obtain ⟨h1, h2, h3⟩ := h
          subst h1
          subst h2
          subst h3
          have hstep := ih l2 hout
          show replayLoop M chain load (ht :: (rest ++ l2)) s = _
          simp [replayLoop, hld, hap, hab, hstep, hout]

/-! The claims. -/

/-- C1: during replay, after applying the height's changes and
advancing the state machine one block, if the state machine's
commitment hash differs from the hash recorded in the canonical block
header at that height, replay returns an error and stops at that very
height: the changes applied over the whole run are exactly those of
the heights up to and including this one, and no change of any later
height is applied. -/
theorem C1_replay_aborts_on_hash_mismatch {S : Type} (M : StateMachine S)
    (chain : Int → Except String Block) (load : Int → LoadResult)
    (hts1 : List Int) (h : Int) (hts2 : List Int) (s s1 s2 s3 : S)
    (log1 : List Change) (ops1 : List RepoOp) (changes : List Change)
    (b : Block)
    (h0 : replayLoop M chain load hts1 s = ⟨.ok s1, log1, ops1⟩)
    (h1 : loadChanges load (h + 1) = .ok changes)
    (h2 : applyChanges M s1 changes = (.ok s2, changes))
    (h3 : M.appendBlock s2 = .ok s3)
    (h4 : chain (M.height s3) = .ok b)
    (h5 : M.merkleHash s3 ≠ b.headerClaimTrie) :
    (replayLoop M chain load (hts1 ++ h :: hts2) s).result =
        .error "hash mismatched" ∧
    (replayLoop M chain load (hts1 ++ h :: hts2) s).applied =
        log1 ++ changes := by
  have hstep := replayLoop_append (h :: hts2) h0
  have hab : appendBlock M chain s2 = .error "hash mismatched" := by
    simp [appendBlock, h3, h4, h5]
  rw [hstep]
  simp [replayLoop, h1, h2, hab]

/-- C1 witness: a state machine whose commitment hash disagrees with
the canonical header at height 1 makes replay over heights 0 and 5
fail with the mismatch error, with nothing applied. -/
theorem C1_witness :
    (replayLoop Mw chainBad loadEmpty ([] ++ 0 :: [5]) 0).result =
        .error "hash mismatched" ∧
    (replayLoop Mw chainBad loadEmpty ([] ++ 0 :: [5]) 0).applied =
        [] ++ ([] : List Change) :=
  C1_replay_aborts_on_hash_mismatch Mw chainBad loadEmpty [] 0 [5] 0 0 0 1
    [] [] [] ⟨1, [], 999⟩ rfl rfl rfl rfl rfl (by decide)

/-- C2: the extractor's output for a list of transactions decomposes,
transaction by transaction in block order, into the spend-side changes
derived from that transaction's inputs followed by the creation-side
changes derived from its outputs. -/
theorem C2_spends_before_creates (height : Int) :
    ∀ {view view1 : UtxoView} {txs : List Tx} {cs : List Change},
      extractTxs height view txs = .ok (cs, view1) →
      ∃ parts : List (List Change), cs = parts.flatten ∧
        List.Forall₂ (fun (part : List Change) (tx : Tx) =>
          ∃ sp cr, part = sp ++ cr ∧
            (∀ c ∈ sp, (c.type = .spendClaim ∨ c.type = .spendSupport) ∧
              c.outPoint ∈ tx.txIn.map TxIn.previousOutPoint) ∧
            (∀ c ∈ cr, (c.type = .addClaim ∨ c.type = .updateClaim ∨
                c.type = .addSupport) ∧ c.outPoint.hash = tx.hash))
          parts txs := by
  intro view view1 txs
  induction txs generalizing view view1 with
  | nil =>
    intro cs h
    simp [extractTxs] at h
    obtain ⟨h1, _⟩ := h
    subst h1
    exact ⟨[], by simp, by simp⟩
  | cons tx txs ih =>
    intro cs h
    cases h1 : extractTx view height tx with
    | error e => simp [extractTxs, h1] at h
    | ok p =>
      obtain ⟨cs1, v1⟩ := p
      cases h2 : extractTxs height v1 txs with
      | error e => simp [extractTxs, h1, h2] at h
      | ok q =>
        obtain ⟨cs2, v2⟩ := q
        simp [extractTxs, h1, h2] at h
        obtain ⟨h3, _⟩ := h
        subst h3
        obtain ⟨parts, hflat, hall⟩ := ih h2
        obtain ⟨sp, cr, hsplit, hsp, hcr⟩ := extractTx_split h1
        refine ⟨cs1 :: parts, by simp [hflat], ?_⟩
        refine List.Forall₂.cons ⟨sp, cr, hsplit, ?_, ?_⟩ hall
        · exact fun c hc => ⟨(hsp c hc).1, (hsp c hc).2.1⟩
        · exact fun c hc => ⟨(hcr c hc).1, (hcr c hc).2.1⟩

/-- C2 witness: the two-transaction block `blkCreate` splits into the
per-transaction parts in block order, spends before creates. -/
theorem C2_witness :
    ∃ parts : List (List Change), csBatch = parts.flatten ∧
      List.Forall₂ (fun (part : List Change) (tx : Tx) =>
        ∃ sp cr, part = sp ++ cr ∧
          (∀ c ∈ sp, (c.type = .spendClaim ∨ c.type = .spendSupport) ∧
            c.outPoint ∈ tx.txIn.map TxIn.previousOutPoint) ∧
          (∀ c ∈ cr, (c.type = .addClaim ∨ c.type = .updateClaim ∨
              c.type = .addSupport) ∧ c.outPoint.hash = tx.hash))
        parts [createTx, spendTx] :=
  @C2_spends_before_creates 3 [] viewBatch [createTx, spendTx] csBatch
    (by decide)

/-- C3: a spend of a resolved claim-script output is classified by
opcode: a create-opcode spend yields SpendClaim with a claim ID newly
derived from the spent outpoint; an update-opcode spend yields
SpendClaim and a support-opcode spend yields SpendSupport, both with
the claim ID taken verbatim from the script. -/
theorem C3_spend_classification (view : UtxoView) (height : Int)
    (txIn : TxIn) (e : TxOut) (cs : ClaimScript)
    (hl : LookupEntry view txIn.previousOutPoint = some e)
    (hd : e.pkScript = .claim cs) :
    (cs.opcode = .opClaimName → spendChange view height txIn =
      .ok (some ⟨height, .spendClaim, cs.name, txIn.previousOutPoint,
        NewClaimID txIn.previousOutPoint, 0⟩)) ∧
    (cs.opcode = .opUpdateClaim → spendChange view height txIn =
      .ok (some ⟨height, .spendClaim, cs.name, txIn.previousOutPoint,
        cs.claimID, 0⟩)) ∧
    (cs.opcode = .opSupportClaim → spendChange view height txIn =
      .ok (some ⟨height, .spendSupport, cs.name, txIn.previousOutPoint,
        cs.claimID, 0⟩)) := by
  refine ⟨fun ho => ?_, fun ho => ?_, fun ho => ?_⟩ <;>
    simp [spendChange, DecodeClaimScript, hl, hd, ho]

/-- C3 witness: spending the create-opcode output bound in
`viewCreate` yields a SpendClaim whose claim ID is derived from the
spent outpoint. -/
theorem C3_witness :
    spendChange viewCreate 3 ⟨⟨7, 0⟩⟩ =
      .ok (some ⟨3, .spendClaim, [1], ⟨7, 0⟩, NewClaimID ⟨7, 0⟩, 0⟩) :=
  (C3_spend_classification viewCreate 3 ⟨⟨7, 0⟩⟩ ⟨.claim csCreate, 10⟩
    csCreate rfl rfl).1 rfl

/-- C4: at every height step the replay engine loads the batch for
height + 1; a not-found result is treated as an empty batch (nothing
applied, the loop continues), while any other load failure makes
replay return an error immediately with nothing applied. -/
theorem C4_replay_load_handling {S : Type} (M : StateMachine S)
    (chain : Int → Except String Block) (load : Int → LoadResult)
    (ht : Int) (rest : List Int) (s : S) :
    (load (ht + 1) = .notFound → loadChanges load (ht + 1) = .ok []) ∧
    (load (ht + 1) = .notFound → ∀ s2, appendBlock M chain s = .ok s2 →
      replayLoop M chain load (ht :: rest) s =
        ⟨(replayLoop M chain load rest s2).result,
         (replayLoop M chain load rest s2).applied,
         RepoOp.loadChainRepo (ht + 1) ::
           (replayLoop M chain load rest s2).loads⟩) ∧
    (∀ e, load (ht + 1) = .failure e →
      replayLoop M chain load (ht :: rest) s =
        ⟨.error e, [], [RepoOp.loadChainRepo (ht + 1)]⟩) := by
  refine ⟨fun hnf => by simp [loadChanges, hnf],
    fun hnf s2 hab => ?_, fun e hf => ?_⟩
  · have hld : loadChanges load (ht + 1) = .ok [] := by
      simp [loadChanges, hnf]
    have hap : applyChanges M s ([] : List Change) = (.ok s, []) := rfl
    simp [replayLoop, hld, hap, hab]
  · have hld : loadChanges load (ht + 1) = .error e := by
      simp [loadChanges, hf]
    simp [replayLoop, hld]

/-- C4 witness: with an always-empty store the loop at height 0
continues past the not-found, while a store failing with an I/O error
stops replay at once. -/
theorem C4_witness :
    (replayLoop Mw chainGood loadEmpty [0] 0 =
      ⟨(replayLoop Mw chainGood loadEmpty [] 1).result,
       (replayLoop Mw chainGood loadEmpty [] 1).applied,
       RepoOp.loadChainRepo 1 ::
         (replayLoop Mw chainGood loadEmpty [] 1).loads⟩) ∧
    (replayLoop Mw chainGood loadBroken [0] 0 =
      ⟨.error "io failure", [], [RepoOp.loadChainRepo 1]⟩) :=
  ⟨(C4_replay_load_handling Mw chainGood loadEmpty 0 [] 0).2.1 rfl 1
      (by decide),
   (C4_replay_load_handling Mw chainGood loadBroken 0 [] 0).2.2
      "io failure" rfl⟩

/-- C5: the claim says the fetch stage reads blocks up to (but
excluding) min(flag height, tip); the code ignores the flag entirely
and reads up to min(200000, tip). At flag value 5 with tip 10 the
fetch stage reads heights 0 through 9, not 0 through 4. -/
theorem C5_convert_fetch_bound_bug :
    (∀ tip : Int, fetchToHeight tip = min 200000 tip) ∧
    fetchHeights 10 = intRange 0 10 ∧
    fetchHeightsClaim 5 10 = intRange 0 5 ∧
    fetchHeights 10 ≠ fetchHeightsClaim 5 10 := by
  refine ⟨fun tip => ?_, by decide, by decide, by decide⟩
  rw [fetchToHeight]
  simp only [min_def]
  split <;> split <;> omega

/-- C6 counterexample: the claim says a transaction's outputs are
registered into the view only after its inputs are processed. On a
transaction whose input spends the transaction's own output 0, the
extractor resolves the input successfully (the output was registered
first) and emits a SpendClaim followed by an AddClaim, whereas
processing the inputs before registering the outputs, as the claim
states, fails to resolve the input. -/
theorem C6_counterexample :
    extractTx [] 1 selfSpendTx =
      .ok ([⟨1, .spendClaim, [1], ⟨7, 0⟩, 57, 0⟩,
            ⟨1, .addClaim, [1], ⟨7, 0⟩, 57, 10⟩],
           [(⟨7, 0⟩, ⟨.claim csCreate, 10⟩)]) ∧
    extractTxClaimOrder [] 1 selfSpendTx = .error "missing input in view" ∧
    extractTx [] 1 selfSpendTx ≠ extractTxClaimOrder [] 1 selfSpendTx := by
  decide

/-- C6 (amended): for every transaction the extractor processes,
coinbase included, all of its outputs are registered into the
unspent-output view before its inputs are processed: every output is
found in the extended view regardless of claim-relatedness, the whole
non-coinbase body (inputs first, then outputs) runs against the
already-extended view, and the view handed on is the extended one. -/
theorem C6_outputs_registered_first (view : UtxoView) (height : Int)
    (tx : Tx) :
    (∀ j (hj : j < tx.txOut.length),
      LookupEntry (AddTxOuts view tx) (OutPoint.mk tx.hash j) =
        some (tx.txOut.get ⟨j, hj⟩)) ∧
    (IsCoinBase tx = false →
      extractTx view height tx =
        extractTxFromRegistered (AddTxOuts view tx) height tx) ∧
    (∀ cs1 view1, extractTx view height tx = .ok (cs1, view1) →
      view1 = AddTxOuts view tx) := by
  refine ⟨fun j hj => addTxOuts_lookup hj, fun hcb => ?_, fun cs1 view1 h => ?_⟩
  · rw [extractTx, extractTxFromRegistered]
    simp [hcb]
  · by_cases hcb : IsCoinBase tx
    · simp [extractTx, hcb] at h
      exact h.2.symm
    · cases h1 : spendChanges (AddTxOuts view tx) height tx.txIn with
      | error e => simp [extractTx, hcb, h1] at h
      | ok sp =>
        cases h2 : createChanges height tx.hash 0 tx.txOut with
        | error e => simp [extractTx, hcb, h1, h2] at h
        | ok cr =>
          simp [extractTx, hcb, h1, h2] at h
          exact h.2.symm

/-- C6 witness: on the self-spending transaction, output 0 is found in
the extended view and the non-coinbase body runs against it. -/
theorem C6_witness :
    LookupEntry (AddTxOuts [] selfSpendTx) (OutPoint.mk selfSpendTx.hash 0) =
        some (selfSpendTx.txOut.get ⟨0, by decide⟩) ∧
    extractTx [] 1 selfSpendTx =
        extractTxFromRegistered (AddTxOuts [] selfSpendTx) 1 selfSpendTx :=
  ⟨(C6_outputs_registered_first [] 1 selfSpendTx).1 0 (by decide),
   (C6_outputs_registered_first [] 1 selfSpendTx).2.1 rfl⟩

/-- C7: a script that fails to decode as a claim script at all is
skipped without error on both the input and the output side, whereas a
claim-shaped but malformed script is a fatal extraction error, which
propagates so that no batch is produced as if the script were
absent. -/
theorem C7_claim_script_errors (view : UtxoView) (height : Int)
    (txIn : TxIn) (e : TxOut) (txHash i : Nat) (txOut : TxOut)
    (hl : LookupEntry view txIn.previousOutPoint = some e) :
    (e.pkScript = .notClaimScript →
      spendChange view height txIn = .ok none) ∧
    (e.pkScript = .malformed →
      spendChange view height txIn = .error "cannot parse claim script") ∧
    (txOut.pkScript = .notClaimScript →
      createChange height txHash i txOut = .ok none) ∧
    (txOut.pkScript = .malformed →
      createChange height txHash i txOut =
        .error "nil claim script dereferenced") ∧
    (∀ msg is, spendChange view height txIn = .error msg →
      spendChanges view height (txIn :: is) = .error msg) ∧
    (∀ msg os, createChange height txHash i txOut = .error msg →
      createChanges height txHash i (txOut :: os) = .error msg) := by
  refine ⟨fun hs => by simp [spendChange, DecodeClaimScript, hl, hs],
    fun hs => by simp [spendChange, DecodeClaimScript, hl, hs],
    fun hs => by simp [createChange, DecodeClaimScript, hs],
    fun hs => by simp [createChange, DecodeClaimScript, hs],
    fun msg is hs => by simp [spendChanges, hs],
    fun msg os hs => by simp [createChanges, hs]⟩

/-- C7 witness: the malformed script bound in `viewMalformed` makes the
spend side fail, a non-claim output is skipped, and the failure
propagates through the input loop. -/
theorem C7_witness :
    spendChange viewMalformed 3 ⟨⟨7, 0⟩⟩ =
      .error "cannot parse claim script" ∧
    createChange 3 8 0 ⟨.notClaimScript, 4⟩ = .ok none ∧
    spendChanges viewMalformed 3 [⟨⟨7, 0⟩⟩] =
      .error "cannot parse claim script" :=
  ⟨(C7_claim_script_errors viewMalformed 3 ⟨⟨7, 0⟩⟩ ⟨.malformed, 10⟩ 8 0
      ⟨.notClaimScript, 4⟩ rfl).2.1 rfl,
   (C7_claim_script_errors viewMalformed 3 ⟨⟨7, 0⟩⟩ ⟨.malformed, 10⟩ 8 0
      ⟨.notClaimScript, 4⟩ rfl).2.2.1 rfl,
   (C7_claim_script_errors viewMalformed 3 ⟨⟨7, 0⟩⟩ ⟨.malformed, 10⟩ 8 0
      ⟨.notClaimScript, 4⟩ rfl).2.2.2.2.1 "cannot parse claim script" []
      ((C7_claim_script_errors viewMalformed 3 ⟨⟨7, 0⟩⟩ ⟨.malformed, 10⟩ 8 0
        ⟨.notClaimScript, 4⟩ rfl).2.1 rfl)⟩

/-- C8: a batch emitted by the extract stage is non-empty, all of its
records carry the height of the block they were extracted from, and
that common height is exactly the key the persist stage saves the
batch under. -/
theorem C8_batch_uniform_height_and_key (view view1 : UtxoView)
    (b : Block) (cs batch : List Change)
    (hx : extractBlock view b = .ok (cs, view1))
    (he : emittedBatch cs = some batch) :
    batch ≠ [] ∧ (∀ c ∈ batch, c.height = b.height) ∧
    saveKey batch = b.height := by
  rw [emittedBatch] at he
  split at he
  · exact absurd he (by simp)
  · next hcs =>
    have hbe : cs = batch := by
      simpa using he
    subst hbe
    have hh : ∀ c ∈ cs, c.height = b.height :=
      extractTxs_heights hx
    have hne : cs ≠ [] := by
      simpa [List.isEmpty_iff] using hcs
    refine ⟨hne, hh, ?_⟩
    cases cs with
    | nil => exact absurd rfl hne
    | cons c cs0 => exact hh c (by simp)

/-- C8 witness: the batch extracted from `blkCreate` is non-empty, all
its records carry height 3, and the persist key is 3. -/
theorem C8_witness :
    csBatch ≠ [] ∧ (∀ c ∈ csBatch, c.height = blkCreate.height) ∧
    saveKey csBatch = blkCreate.height :=
  C8_batch_uniform_height_and_key [] viewBatch blkCreate csBatch csBatch
    (by decide) rfl

/-- C9: the replay command never writes to or deletes the change-log
store: its repository trace contains no save on the chain repository,
every deletion it performs is of one of the four derived-state
repositories, and the operations it performs against the chain
repository within the loop are all loads. -/
theorem C9_replay_reads_only {S : Type} (M : StateMachine S)
    (chain : Int → Except String Block) (load : Int → LoadResult)
    (fromHeight toHeight : Int) (s : S) :
    (∀ h, RepoOp.saveChainRepo h ∉
        replayCmdTrace M chain load fromHeight toHeight s) ∧
    (∀ n, RepoOp.deleteRepo n ∈
        replayCmdTrace M chain load fromHeight toHeight s →
      n ∈ derivedRepoNames) ∧
    (∀ op ∈ (replayLoop M chain load (intRange fromHeight toHeight) s).loads,
      ∃ h, op = RepoOp.loadChainRepo h) := by
  refine ⟨fun h hmem => ?_, fun n hmem => ?_,
    fun op hop => replayLoop_loads_are_loads op hop⟩
  · simp [replayCmdTrace, derivedRepoNames] at hmem
    obtain ⟨h2, heq⟩ := replayLoop_loads_are_loads _ hmem
    simp at heq
  · simp [replayCmdTrace, derivedRepoNames] at hmem
    rcases hmem with h1 | h1 | h1 | h1 | h1
    · simp [derivedRepoNames, h1]
    · simp [derivedRepoNames, h1]
    · simp [derivedRepoNames, h1]
    · simp [derivedRepoNames, h1]
    · obtain ⟨h2, heq⟩ := replayLoop_loads_are_loads _ h1
      simp at heq

/-- C9 witness: in the concrete replay trace over heights 0 to 1, the
deletion of the block repository targets a derived-state repository,
and the loop operation at height 1 is a load. -/
theorem C9_witness :
    "blockRepo" ∈ derivedRepoNames ∧
    ∃ h, RepoOp.loadChainRepo 1 = RepoOp.loadChainRepo h :=
  ⟨(C9_replay_reads_only Mw chainGood loadEmpty 0 1 0).2.1 "blockRepo"
      (by decide),
   (C9_replay_reads_only Mw chainGood loadEmpty 0 1 0).2.2
      (RepoOp.loadChainRepo 1) (by decide)⟩

/-- C10: extraction is deterministic: running the extractor twice on
the same block from the same unspent-output view state yields
identical ordered change sequences. -/
theorem C10_extractor_deterministic (v1 v2 : UtxoView) (b1 b2 : Block)
    (hv : v1 = v2) (hb : b1 = b2) :
    extractBlock v1 b1 = extractBlock v2 b2 := by
  rw [hv, hb]

/-- C10 witness: two runs on `blkCreate` from the empty view agree. -/
theorem C10_witness :
    extractBlock [] blkCreate = extractBlock [] blkCreate :=
  C10_extractor_deterministic [] [] blkCreate blkCreate rfl rfl

end ClaimtrieChain
